import Mathlib

/-!
Verification development for `chainlink_blockchain.py`, a tamper-evident
order-tracking ledger.  The Python source is shallowly embedded below:

* `Block` mirrors the Python `Block` class (fields `index`, `timestamp`,
  `order_id`, `location`, `action`, `data`, `previous_hash`, `hash`).
  The Python `timestamp` is a `datetime`; only its `str(...)` form enters the
  hash, so it is embedded as the string form directly.
* The block digest is `sha256(json.dumps({...}, sort_keys=True))`.
  `json.dumps(..., sort_keys=True)` serializes the seven semantic fields with
  the attribute dictionary in sorted key order; this canonical field tuple is
  embedded structurally, and SHA-256 is idealized as collision-free by taking
  the digest type `Digest` to be an inductive whose `sha` constructor is
  injective in the canonical field tuple (`raw` covers literal hash strings
  such as the genesis sentinel `"0"`).
* Methods that read the current time (`datetime.now()`) take the time as an
  explicit argument; methods that print take no special treatment, but the
  printed tamper diagnostic of `validate_chain` is reified as
  `firstViolation`, which records the first reported position and message
  kind.  `chain[-1]` on a possibly-empty list is embedded as `getLast?`.
-/

/-- Scalar attribute values admitted in the `data` dictionary (the demo uses
strings; JSON scalars also allow numbers and booleans). -/
inductive AttrVal where
  | str : String → AttrVal
  | int : Int → AttrVal
  | bool : Bool → AttrVal
deriving DecidableEq

/-- Symbolic SHA-256 digest.  `sha` records the canonical serialized content
of a block: index, `str(timestamp)`, order_id, location, action, the data
pairs in sorted key order, and the previous hash, exactly the fields
serialized by `Block.calculate_hash` in the source.  SHA-256 being
collision-resistant is idealized as injectivity of the `sha` constructor;
`raw` stands for strings that are not digests (e.g. the genesis sentinel
`"0"`). -/
inductive Digest where
  | raw : String → Digest
  | sha : Nat → String → String → String → String → List (String × AttrVal) → Digest → Digest
deriving DecidableEq

/-- Insert a key-value pair into a list sorted by key (helper for the
canonical `sort_keys=True` ordering used by `json.dumps`). -/
def insertSorted {α : Type} (p : String × α) : List (String × α) → List (String × α)
  | [] => [p]
  | q :: qs => if p.1 ≤ q.1 then p :: q :: qs else q :: insertSorted p qs

/-- Sort an association list by key, as `json.dumps(..., sort_keys=True)`
does with the attribute dictionary before serializing it. -/
def sortByKey {α : Type} : List (String × α) → List (String × α)
  | [] => []
  | p :: ps => insertSorted p (sortByKey ps)

/-- One block of the chain, mirroring the fields set by `Block.__init__`. -/
structure Block where
  index : Nat
  timestamp : String
  order_id : String
  location : String
  action : String
  data : List (String × AttrVal)
  previous_hash : Digest
  hash : Digest
deriving DecidableEq

instance : Inhabited Block :=
  ⟨⟨0, "", "", "", "", [], Digest.raw "", Digest.raw ""⟩⟩

/-- `Block.calculate_hash`: SHA-256 of the JSON serialization (with
`sort_keys=True`) of the block's seven semantic fields.  The stored `hash`
field is not an input. -/
def calculate_hash (b : Block) : Digest :=
  Digest.sha b.index b.timestamp b.order_id b.location b.action (sortByKey b.data) b.previous_hash

/-- `Block.__init__`: stores the supplied fields (with `data or {}` turning an
absent attribute mapping into the empty one) and immediately seals the block
with `self.hash = self.calculate_hash()`. -/
def Block.init (index : Nat) (timestamp : String) (order_id : String) (location : String)
    (action : String) (previous_hash : Digest) (data : Option (List (String × AttrVal))) : Block :=
  let b0 : Block :=
    { index := index, timestamp := timestamp, order_id := order_id, location := location,
      action := action, data := data.getD [], previous_hash := previous_hash,
      hash := Digest.raw "" }
  { b0 with hash := calculate_hash b0 }

/-- The ledger: `OrderBlockchain` holds the ordered list of blocks. -/
structure OrderBlockchain where
  chain : List Block
deriving DecidableEq

/-- `OrderBlockchain.create_genesis_block`: the block appended at
construction time (`datetime.now()` passed explicitly as `now`). -/
def create_genesis_block (now : String) : Block :=
  Block.init 0 now "GENESIS" "System" "Chain Initialized" (Digest.raw "0") none

/-- `OrderBlockchain.__init__`: starts with the empty list and appends the
genesis block. -/
def OrderBlockchain.init (now : String) : OrderBlockchain :=
  ⟨[create_genesis_block now]⟩

/-- `OrderBlockchain.get_latest_block`: `self.chain[-1]`; `none` models the
`IndexError` raised on an empty list. -/
def get_latest_block (bc : OrderBlockchain) : Option Block :=
  bc.chain.getLast?

/-- `OrderBlockchain.add_block`: reads the latest block, builds the new block
with incremented index and the latest block's hash as `previous_hash`,
appends it and returns it.  `none` models the `IndexError` of `chain[-1]` on
an empty chain; the returned pair is the updated ledger and the new block. -/
def add_block (bc : OrderBlockchain) (now : String) (order_id : String) (location : String)
    (action : String) (data : Option (List (String × AttrVal))) :
    Option (OrderBlockchain × Block) :=
  match get_latest_block bc with
  | none => none
  | some previous_block =>
      let new_block := Block.init (previous_block.index + 1) now order_id location action
        previous_block.hash data
      some (⟨bc.chain ++ [new_block]⟩, new_block)

/-- Kind of tamper diagnostic printed by `validate_chain`: `hashMismatch` is
the "Hash mismatch!" message, `chainBroken` the "Chain broken!" one. -/
inductive VKind where
  | hashMismatch
  | chainBroken
deriving DecidableEq

/-- The loop body of `validate_chain`, scanning positions `i, i+1, ...` of
the remaining blocks with `previous_block` the block just before them: first
the self-consistency check (`current_block.hash != current_block.calculate_hash()`),
then the linkage check (`current_block.previous_hash != previous_block.hash`),
short-circuiting with the reported position and message at the first
violation. -/
def scanChain (previous_block : Block) (i : Nat) : List Block → Option (Nat × VKind)
  | [] => none
  | current_block :: rest =>
    if current_block.hash ≠ calculate_hash current_block then some (i, VKind.hashMismatch)
    else if current_block.previous_hash ≠ previous_block.hash then some (i, VKind.chainBroken)
    else scanChain current_block (i + 1) rest

/-- The diagnostic reported by `validate_chain`: the position and kind of the
first violation found by the scan `for i in range(1, len(self.chain))`, or
`none` when the scan completes. -/
def firstViolation (chain : List Block) : Option (Nat × VKind) :=
  match chain with
  | [] => none
  | b :: rest => scanChain b 1 rest

/-- `OrderBlockchain.validate_chain`: returns `True` exactly when the scan
finds no violation. -/
def validate_chain (bc : OrderBlockchain) : Bool :=
  (firstViolation bc.chain).isNone

/-- `OrderBlockchain.get_order_journey`: the list comprehension
`[block for block in self.chain if block.order_id == order_id]`. -/
def get_order_journey (bc : OrderBlockchain) (order_id : String) : List Block :=
  bc.chain.filter (fun block => block.order_id == order_id)

/-- One call to `add_block` with its explicit inputs (`now` being the
`datetime.now()` sample used for the new block). -/
structure AppendReq where
  now : String
  order_id : String
  location : String
  action : String
  data : Option (List (String × AttrVal))

/-- Perform a finite sequence of `add_block` calls.  The `none` branch (empty
chain) is unreachable from a constructed ledger and leaves the ledger
unchanged. -/
def applyAppends (bc : OrderBlockchain) : List AppendReq → OrderBlockchain
  | [] => bc
  | r :: rs =>
    match add_block bc r.now r.order_id r.location r.action r.data with
    | none => bc
    | some (bc2, _) => applyAppends bc2 rs

/-- A ledger state reachable by creating a ledger and performing a finite
sequence of appends. -/
def Reachable (bc : OrderBlockchain) : Prop :=
  ∃ now reqs, bc = applyAppends (OrderBlockchain.init now) reqs

/-- Self-consistency and linkage at position `i` of a chain, as checked by
`validate_chain` for `1 ≤ i < len(chain)`. -/
def okAt (c : List Block) (i : Nat) : Prop :=
  (c.getD i default).hash = calculate_hash (c.getD i default) ∧
  (c.getD i default).previous_hash = (c.getD (i - 1) default).hash

/-- The relation between consecutive blocks checked by the scan. -/
def okPair (previous current : Block) : Prop :=
  current.hash = calculate_hash current ∧ current.previous_hash = previous.hash

/-- State-passing embedding of the `validate_chain` method call: the method
body contains no assignment to `self.chain` or to any block, so the resulting
ledger state is the input state; the returned value and the printed
diagnostic are the other two components. -/
def validate_chain_run (bc : OrderBlockchain) : OrderBlockchain × Bool × Option (Nat × VKind) :=
  (bc, validate_chain bc, firstViolation bc.chain)

/-- State-passing embedding of the `get_order_journey` method call: the list
comprehension reads `self.chain` and assigns nothing. -/
def get_order_journey_run (bc : OrderBlockchain) (order_id : String) :
    OrderBlockchain × List Block :=
  (bc, get_order_journey bc order_id)

/-- `b2` is the result of mutating exactly one stored field of `b` (as the
demo does with `blockchain.chain[4].action = "PACKAGE LOST"`).  For the
`data` dictionary, a change means a change of the mapping itself (Python
dictionaries with the same key-value pairs are equal regardless of insertion
order, so the canonical sorted form must differ). -/
def SingleFieldMutation (b b2 : Block) : Prop :=
  (b2 = { b with index := b2.index } ∧ b2.index ≠ b.index) ∨
  (b2 = { b with timestamp := b2.timestamp } ∧ b2.timestamp ≠ b.timestamp) ∨
  (b2 = { b with order_id := b2.order_id } ∧ b2.order_id ≠ b.order_id) ∨
  (b2 = { b with location := b2.location } ∧ b2.location ≠ b.location) ∨
  (b2 = { b with action := b2.action } ∧ b2.action ≠ b.action) ∨
  (b2 = { b with data := b2.data } ∧ sortByKey b2.data ≠ sortByKey b.data) ∨
  (b2 = { b with previous_hash := b2.previous_hash } ∧ b2.previous_hash ≠ b.previous_hash) ∨
  (b2 = { b with hash := b2.hash } ∧ b2.hash ≠ b.hash)

instance instDecidableSingleFieldMutation (b b2 : Block) :
    Decidable (SingleFieldMutation b b2) := by
  unfold SingleFieldMutation
  exact inferInstance

/-- Structural well-formedness of a chain as established by construction and
append: positional indices, self-consistent hashes, and linkage. -/
def WFChain (c : List Block) : Prop :=
  c ≠ [] ∧ ∀ i, i < c.length →
    ((c.getD i default).index = i ∧
     (c.getD i default).hash = calculate_hash (c.getD i default) ∧
     (0 < i → (c.getD i default).previous_hash = (c.getD (i - 1) default).hash))

/-- Every stored hash is the digest of its block's stored fields (the spec's
invariant that `hash` is never independently assigned). -/
def Consistent (c : List Block) : Prop :=
  ∀ i, i < c.length → (c.getD i default).hash = calculate_hash (c.getD i default)

instance instDecidableConsistent (c : List Block) : Decidable (Consistent c) := by
  unfold Consistent
  exact inferInstance

/-- An arbitrary Python value supplied as an attribute: either a JSON
scalar, or an object `json.dumps` cannot serialize (tagged with its Python
type name, which is all the raised `TypeError` reports). -/
inductive PyVal where
  | scalar : AttrVal → PyVal
  | unserializable : String → PyVal
deriving DecidableEq

/-- Serialization check for one attribute value, as performed by `json.dumps`
inside `calculate_hash`: a non-serializable object raises
`TypeError("Object of type <typename> is not JSON serializable")` — a message
that names the value's type, never the dictionary key. -/
def checkVal : PyVal → Except String AttrVal
  | PyVal.scalar v => Except.ok v
  | PyVal.unserializable ty =>
      Except.error ("Object of type " ++ ty ++ " is not JSON serializable")

/-- Serialization check of the attribute pairs in the order `json.dumps`
visits them, stopping at the first failing value. -/
def checkData : List (String × PyVal) → Except String (List (String × AttrVal))
  | [] => Except.ok []
  | (k, v) :: rest =>
    match checkVal v with
    | Except.error e => Except.error e
    | Except.ok a =>
      match checkData rest with
      | Except.error e => Except.error e
      | Except.ok r => Except.ok ((k, a) :: r)

/-- Underlying scalar of a successfully serialized value (junk on the
unserializable case, which is unreachable whenever `checkData` succeeds). -/
def scalarOf : PyVal → AttrVal
  | PyVal.scalar v => v
  | PyVal.unserializable _ => AttrVal.str ""

/-- `Block.__init__` under arbitrary Python attribute values: the fields are
stored, then `self.hash = self.calculate_hash()` runs `json.dumps` with
`sort_keys=True`, which visits the attribute pairs in sorted key order and
raises out of the constructor at the first non-serializable value, so no
block results (`Except.error`).  On success the block holds the original
scalar pairs and its digest. -/
def Block.constructPy (index : Nat) (timestamp : String) (order_id : String) (location : String)
    (action : String) (previous_hash : Digest) (data : Option (List (String × PyVal))) :
    Except String Block :=
  let d := data.getD []
  match checkData (sortByKey d) with
  | Except.error e => Except.error e
  | Except.ok _ =>
      Except.ok (Block.init index timestamp order_id location action previous_hash
        (some (d.map (fun p => (p.1, scalarOf p.2)))))

/-- Concrete sample data used to evaluate the theorems below on explicit
inputs: the genesis block of a ledger created at time `"t0"`. -/
def sampleGenesis : Block := create_genesis_block "t0"

/-- A first appended block, as `add_block` would build it. -/
def sampleBlock1 : Block :=
  Block.init 1 "t1" "A1" "Loc1" "Received" sampleGenesis.hash none

/-- A concrete two-block ledger (genesis plus one appended event). -/
def sampleChain : OrderBlockchain := ⟨[sampleGenesis, sampleBlock1]⟩

/-- A concrete append request. -/
def sampleReq : AppendReq := ⟨"t1", "A1", "Loc1", "Received", none⟩

/-- The stored `hash` field is not among the inputs of the digest. -/
theorem calculate_hash_set_hash (b : Block) (h : Digest) :
    calculate_hash { b with hash := h } = calculate_hash b := rfl

/-- A freshly constructed block is self-consistent: `__init__` seals it with
`self.hash = self.calculate_hash()`. -/
theorem Block.init_selfconsistent (index : Nat) (timestamp order_id location action : String)
    (previous_hash : Digest) (data : Option (List (String × AttrVal))) :
    (Block.init index timestamp order_id location action previous_hash data).hash =
      calculate_hash (Block.init index timestamp order_id location action previous_hash data) :=
  rfl

theorem Block.init_index (index : Nat) (timestamp order_id location action : String)
    (previous_hash : Digest) (data : Option (List (String × AttrVal))) :
    (Block.init index timestamp order_id location action previous_hash data).index = index := rfl

theorem Block.init_previous_hash (index : Nat) (timestamp order_id location action : String)
    (previous_hash : Digest) (data : Option (List (String × AttrVal))) :
    (Block.init index timestamp order_id location action previous_hash data).previous_hash =
      previous_hash := rfl

theorem Block.init_order_id (index : Nat) (timestamp order_id location action : String)
    (previous_hash : Digest) (data : Option (List (String × AttrVal))) :
    (Block.init index timestamp order_id location action previous_hash data).order_id =
      order_id := rfl

theorem Block.init_data (index : Nat) (timestamp order_id location action : String)
    (previous_hash : Digest) (data : Option (List (String × AttrVal))) :
    (Block.init index timestamp order_id location action previous_hash data).data =
      data.getD [] := rfl

/-- The scan returns `none` exactly when every scanned position satisfies
both checks (stated positionally: position `m` of `rest` is checked against
position `m` of `previous_block :: rest`). -/
theorem scanChain_none_iff (rest : List Block) :
    ∀ (previous_block : Block) (i : Nat),
      scanChain previous_block i rest = none ↔
      ∀ m, m < rest.length →
        okPair ((previous_block :: rest).getD m default) (rest.getD m default) := by
  induction rest with
  | nil => intro prev i; simp [scanChain]
  | cons cur rs ih =>
    intro prev i
    by_cases h1 : cur.hash = calculate_hash cur
    · by_cases h2 : cur.previous_hash = prev.hash
      · rw [scanChain]
        simp only [h1, h2, ne_eq, not_true_eq_false, if_false, ih cur (i + 1)]
        constructor
        · intro h m hm
          match m with
          | 0 => exact ⟨h1, h2⟩
          | Nat.succ m2 =>
            have := h m2 (by simpa using hm)
            simpa using this
        · intro h m hm
          have := h (m + 1) (by simpa using hm)
          simpa using this
      · rw [scanChain]
        simp only [h1, h2, ne_eq, not_true_eq_false, if_false, not_false_eq_true, if_true]
        constructor
        · intro h; exact absurd h (by simp)
        · intro h
          have := h 0 (by simp)
          exact absurd this.2 (by simpa using h2)
    · rw [scanChain]
      simp only [h1, ne_eq, not_false_eq_true, if_true]
      constructor
      · intro h; exact absurd h (by simp)
      · intro h
        have := h 0 (by simp)
        exact absurd this.1 (by simpa using h1)

/-- What a `some` result of the scan means: the reported position is the
first violating one (all earlier scanned positions pass), with the
self-consistency check made before the linkage check. -/
theorem scanChain_some_elim (rest : List Block) :
    ∀ (previous_block : Block) (i j : Nat) (k : VKind),
      scanChain previous_block i rest = some (j, k) →
      i ≤ j ∧ j - i < rest.length ∧
      (∀ m, m < j - i →
        okPair ((previous_block :: rest).getD m default) (rest.getD m default)) ∧
      (k = VKind.hashMismatch →
        (rest.getD (j - i) default).hash ≠ calculate_hash (rest.getD (j - i) default)) ∧
      (k = VKind.chainBroken →
        (rest.getD (j - i) default).hash = calculate_hash (rest.getD (j - i) default) ∧
        (rest.getD (j - i) default).previous_hash ≠
          ((previous_block :: rest).getD (j - i) default).hash) := by
  induction rest with
  | nil => intro prev i j k h; simp [scanChain] at h
  | cons cur rs ih =>
    intro prev i j k h
    rw [scanChain] at h
    by_cases h1 : cur.hash = calculate_hash cur
    · by_cases h2 : cur.previous_hash = prev.hash
      · simp only [h1, h2, ne_eq, not_true_eq_false, if_false] at h
        obtain ⟨hij, hlen, hpre, hkh, hkc⟩ := ih cur (i + 1) j k h
        have hji : j - i = (j - (i + 1)) + 1 := by omega
        refine ⟨by omega, by simp [hji]; omega, ?_, ?_, ?_⟩
        · intro m hm
          match m with
          | 0 => exact ⟨h1, h2⟩
          | Nat.succ m2 =>
            have := hpre m2 (by omega)
            simpa using this
        · intro hk
          have := hkh hk
          rw [hji]
          simpa using this
        · intro hk
          have := hkc hk
          rw [hji]
          simpa using this
      · simp only [h1, h2, ne_eq, not_true_eq_false, if_false, not_false_eq_true, if_true,
          Option.some.injEq, Prod.mk.injEq] at h
        obtain ⟨rfl, rfl⟩ := h
        refine ⟨Nat.le_refl i, by simp, by simp, ?_, ?_⟩
        · intro hk; cases hk
        · intro _
          refine ⟨by simpa using h1, ?_⟩
          simpa using h2
    · simp only [h1, ne_eq, not_false_eq_true, if_true, Option.some.injEq, Prod.mk.injEq] at h
      obtain ⟨rfl, rfl⟩ := h
      refine ⟨Nat.le_refl i, by simp, by simp, ?_, ?_⟩
      · intro _; simpa using h1
      · intro hk; cases hk

/-- The digest is a function of the seven serialized fields alone. -/
theorem calculate_hash_congr (b1 b2 : Block)
    (h1 : b1.index = b2.index) (h2 : b1.timestamp = b2.timestamp)
    (h3 : b1.order_id = b2.order_id) (h4 : b1.location = b2.location)
    (h5 : b1.action = b2.action) (h6 : b1.data = b2.data)
    (h7 : b1.previous_hash = b2.previous_hash) :
    calculate_hash b1 = calculate_hash b2 := by
  simp [calculate_hash, h1, h2, h3, h4, h5, h6, h7]

/-- Collision-freedom of the idealized digest: equal digests come from equal
canonical field tuples. -/
theorem calculate_hash_inj (b1 b2 : Block) (h : calculate_hash b1 = calculate_hash b2) :
    b1.index = b2.index ∧ b1.timestamp = b2.timestamp ∧ b1.order_id = b2.order_id ∧
    b1.location = b2.location ∧ b1.action = b2.action ∧
    sortByKey b1.data = sortByKey b2.data ∧ b1.previous_hash = b2.previous_hash := by
  simpa [calculate_hash, Digest.sha.injEq] using h

/-- Mutating a single field of a self-consistent block leaves a block whose
stored hash no longer matches its recomputed digest. -/
theorem mutation_breaks_selfconsistency (b b2 : Block)
    (hb : b.hash = calculate_hash b) (hm : SingleFieldMutation b b2) :
    b2.hash ≠ calculate_hash b2 := by
  intro hcon
  rcases hm with ⟨he, hne⟩ | ⟨he, hne⟩ | ⟨he, hne⟩ | ⟨he, hne⟩ |
    ⟨he, hne⟩ | ⟨he, hne⟩ | ⟨he, hne⟩ | ⟨he, hne⟩
  · apply hne
    have hh : b2.hash = b.hash := by rw [he]
    have hcb : calculate_hash b2 = calculate_hash b := by rw [← hcon, hh, hb]
    exact (calculate_hash_inj b2 b hcb).1
  · apply hne
    have hh : b2.hash = b.hash := by rw [he]
    have hcb : calculate_hash b2 = calculate_hash b := by rw [← hcon, hh, hb]
    exact (calculate_hash_inj b2 b hcb).2.1
  · apply hne
    have hh : b2.hash = b.hash := by rw [he]
    have hcb : calculate_hash b2 = calculate_hash b := by rw [← hcon, hh, hb]
    exact (calculate_hash_inj b2 b hcb).2.2.1
  · apply hne
    have hh : b2.hash = b.hash := by rw [he]
    have hcb : calculate_hash b2 = calculate_hash b := by rw [← hcon, hh, hb]
    exact (calculate_hash_inj b2 b hcb).2.2.2.1
  · apply hne
    have hh : b2.hash = b.hash := by rw [he]
    have hcb : calculate_hash b2 = calculate_hash b := by rw [← hcon, hh, hb]
    exact (calculate_hash_inj b2 b hcb).2.2.2.2.1
  · apply hne
    have hh : b2.hash = b.hash := by rw [he]
    have hcb : calculate_hash b2 = calculate_hash b := by rw [← hcon, hh, hb]
    exact (calculate_hash_inj b2 b hcb).2.2.2.2.2.1
  · apply hne
    have hh : b2.hash = b.hash := by rw [he]
    have hcb : calculate_hash b2 = calculate_hash b := by rw [← hcon, hh, hb]
    exact (calculate_hash_inj b2 b hcb).2.2.2.2.2.2
  · apply hne
    have hcb : calculate_hash b2 = calculate_hash b :=
      calculate_hash_congr b2 b (by rw [he]) (by rw [he]) (by rw [he]) (by rw [he])
        (by rw [he]) (by rw [he]) (by rw [he])
    rw [hcon, hcb, ← hb]

/-- Setting a block of an all-passing scan region to a self-inconsistent one
makes the scan stop exactly there with the hash-mismatch diagnostic. -/
theorem scanChain_set_selfFail (rest : List Block) :
    ∀ (previous_block : Block) (i m : Nat) (b2 : Block),
      m < rest.length → scanChain previous_block i rest = none →
      b2.hash ≠ calculate_hash b2 →
      scanChain previous_block i (rest.set m b2) = some (i + m, VKind.hashMismatch) := by
  induction rest with
  | nil => intro prev i m b2 hm; intro _ _; simp at hm
  | cons cur rs ih =>
    intro prev i m b2 hm hnone hb2
    rw [scanChain] at hnone
    by_cases h1 : cur.hash = calculate_hash cur
    · by_cases h2 : cur.previous_hash = prev.hash
      · simp only [h1, h2, ne_eq, not_true_eq_false, if_false] at hnone
        match m with
        | 0 => simp [List.set_cons_zero, scanChain, hb2]
        | Nat.succ m2 =>
          rw [List.set_cons_succ, scanChain]
          simp only [h1, h2, ne_eq, not_true_eq_false, if_false]
          have h3 := ih cur (i + 1) m2 b2 (by simpa using hm) hnone hb2
          have heq : i + 1 + m2 = i + (m2 + 1) := by omega
          rw [← heq]
          exact h3
      · simp [h1, h2] at hnone
    · simp [h1] at hnone

/-- `validate_chain` returns `True` exactly when every position from 1 to
`len(chain) - 1` passes both the self-consistency and the linkage check. -/
theorem validate_chain_eq_true_iff (bc : OrderBlockchain) :
    validate_chain bc = true ↔ ∀ i, 0 < i → i < bc.chain.length → okAt bc.chain i := by
  rcases bc with ⟨c⟩
  cases c with
  | nil => simp [validate_chain, firstViolation]
  | cons g rest =>
    rw [validate_chain, show (OrderBlockchain.mk (g :: rest)).chain = g :: rest from rfl,
      firstViolation, Option.isNone_iff_eq_none, scanChain_none_iff]
    constructor
    · intro h i h0 hlen
      obtain ⟨m, rfl⟩ : ∃ m, i = m + 1 := ⟨i - 1, by omega⟩
      have := h m (by simpa using hlen)
      simpa [okAt, okPair] using this
    · intro h m hm
      have := h (m + 1) (by omega) (by simpa using hm)
      simpa [okAt, okPair] using this

/-- The last element of a non-empty list, as a positional read. -/
theorem getLast?_eq_getD (c : List Block) (hc : c ≠ []) :
    c.getLast? = some (c.getD (c.length - 1) default) := by
  have hlen : c.length - 1 < c.length := by
    have := List.length_pos.mpr hc
    omega
  rw [List.getLast?_eq_getElem?, List.getElem?_eq_getElem hlen]
  simp [List.getD_eq_getElem?_getD, List.getElem?_eq_getElem hlen]

theorem getD_append_left {c c2 : List Block} {i : Nat} (h : i < c.length) :
    (c ++ c2).getD i default = c.getD i default := by
  simp [List.getD_eq_getElem?_getD, List.getElem?_append_left h]

theorem getD_concat_length (c : List Block) (b : Block) :
    (c ++ [b]).getD c.length default = b := by
  simp [List.getD_eq_getElem?_getD, List.getElem?_concat_length]

/-- Overwriting a position with the element already stored there changes
nothing. -/
theorem set_getD_self (c : List Block) : ∀ (i : Nat), i < c.length →
    c.set i (c.getD i default) = c := by
  induction c with
  | nil => intro i hi; simp at hi
  | cons b bs ih =>
    intro i hi
    match i with
    | 0 => simp
    | Nat.succ i2 =>
      simp only [List.getD_cons_succ, List.set_cons_succ, List.cons.injEq, true_and]
      exact ih i2 (by simpa using hi)

/-- The genesis-only ledger produced by `OrderBlockchain.__init__` is
well-formed. -/
theorem WFChain_init (now : String) : WFChain (OrderBlockchain.init now).chain := by
  refine ⟨by simp [OrderBlockchain.init], ?_⟩
  intro i hi
  have hi0 : i = 0 := by simpa [OrderBlockchain.init] using hi
  subst hi0
  exact ⟨rfl, rfl, by omega⟩

/-- On a non-empty chain, `add_block` reads the last block and appends the
freshly constructed one. -/
theorem add_block_eq (bc : OrderBlockchain) (hbc : bc.chain ≠ [])
    (now order_id location action : String) (data : Option (List (String × AttrVal))) :
    add_block bc now order_id location action data =
      some (⟨bc.chain ++ [Block.init ((bc.chain.getD (bc.chain.length - 1) default).index + 1)
              now order_id location action
              (bc.chain.getD (bc.chain.length - 1) default).hash data]⟩,
            Block.init ((bc.chain.getD (bc.chain.length - 1) default).index + 1)
              now order_id location action
              (bc.chain.getD (bc.chain.length - 1) default).hash data) := by
  rw [add_block, get_latest_block, getLast?_eq_getD bc.chain hbc]

/-- Appending a block whose index, previous hash and hash are those produced
by `add_block` preserves well-formedness. -/
theorem WFChain_concat (c : List Block) (hwf : WFChain c) (nb : Block)
    (hidx : nb.index = (c.getD (c.length - 1) default).index + 1)
    (hph : nb.previous_hash = (c.getD (c.length - 1) default).hash)
    (hh : nb.hash = calculate_hash nb) :
    WFChain (c ++ [nb]) := by
  obtain ⟨hne, hsp⟩ := hwf
  have hlpos : 0 < c.length := List.length_pos.mpr hne
  refine ⟨by simp, ?_⟩
  intro i hi
  rw [List.length_append, List.length_singleton] at hi
  rcases Nat.lt_or_ge i c.length with hlt | hge
  · have e1 : (c ++ [nb]).getD i default = c.getD i default := getD_append_left hlt
    obtain ⟨ha, hb, hc2⟩ := hsp i hlt
    refine ⟨by rw [e1]; exact ha, by rw [e1]; exact hb, ?_⟩
    intro h0
    have e2 : (c ++ [nb]).getD (i - 1) default = c.getD (i - 1) default :=
      getD_append_left (by omega)
    rw [e1, e2]
    exact hc2 h0
  · have hieq : i = c.length := by omega
    subst hieq
    have e1 : (c ++ [nb]).getD c.length default = nb := getD_concat_length c nb
    have hlast := hsp (c.length - 1) (by omega)
    refine ⟨?_, ?_, ?_⟩
    · rw [e1, hidx, hlast.1]
      omega
    · rw [e1]
      exact hh
    · intro h0
      have e2 : (c ++ [nb]).getD (c.length - 1) default = c.getD (c.length - 1) default :=
        getD_append_left (by omega)
      rw [e1, e2, hph]

/-- Appending the block built by `add_block` preserves well-formedness. -/
theorem WFChain_append (c : List Block) (hwf : WFChain c)
    (now order_id location action : String) (data : Option (List (String × AttrVal))) :
    WFChain (c ++ [Block.init ((c.getD (c.length - 1) default).index + 1)
      now order_id location action (c.getD (c.length - 1) default).hash data]) :=
  WFChain_concat c hwf _ (Block.init_index ..) (Block.init_previous_hash ..)
    (Block.init_selfconsistent ..)

/-- Every finite sequence of appends preserves well-formedness and leaves
the genesis block at position 0 untouched. -/
theorem WFChain_applyAppends (reqs : List AppendReq) :
    ∀ (bc : OrderBlockchain), WFChain bc.chain →
      WFChain (applyAppends bc reqs).chain ∧
      (applyAppends bc reqs).chain.getD 0 default = bc.chain.getD 0 default := by
  induction reqs with
  | nil => intro bc h; exact ⟨h, rfl⟩
  | cons r rs ih =>
    intro bc h
    have hab := add_block_eq bc h.1 r.now r.order_id r.location r.action r.data
    have hwf2 := WFChain_append bc.chain h r.now r.order_id r.location r.action r.data
    simp only [applyAppends, hab]
    have hrec := ih ⟨bc.chain ++ [Block.init ((bc.chain.getD (bc.chain.length - 1) default).index + 1)
      r.now r.order_id r.location r.action
      (bc.chain.getD (bc.chain.length - 1) default).hash r.data]⟩ hwf2
    refine ⟨hrec.1, ?_⟩
    rw [hrec.2]
    exact getD_append_left (List.length_pos.mpr h.1)

/-- Well-formedness implies that validation succeeds. -/
theorem WFChain_validate (bc : OrderBlockchain) (h : WFChain bc.chain) :
    validate_chain bc = true := by
  rw [validate_chain_eq_true_iff]
  intro i h0 hlen
  obtain ⟨hne, hsp⟩ := h
  obtain ⟨-, hb, hc2⟩ := hsp i hlen
  exact ⟨hb, hc2 h0⟩

/-- Insertion into a sorted association list is a permutation of consing. -/
theorem insertSorted_perm {α : Type} (p : String × α) (l : List (String × α)) :
    (insertSorted p l).Perm (p :: l) := by
  induction l with
  | nil => simp [insertSorted]
  | cons q qs ih =>
    rw [insertSorted]
    by_cases h : p.1 ≤ q.1
    · simp [h]
    · simp only [h, if_false]
      exact (List.Perm.cons q ih).trans (List.Perm.swap p q qs)

/-- Key-sorting permutes the association list. -/
theorem sortByKey_perm {α : Type} (l : List (String × α)) : (sortByKey l).Perm l := by
  induction l with
  | nil => simp [sortByKey]
  | cons p ps ih =>
    rw [sortByKey]
    exact (insertSorted_perm p (sortByKey ps)).trans (List.Perm.cons p ih)

/-- Insertion preserves sortedness by key. -/
theorem insertSorted_pairwise {α : Type} (p : String × α) (l : List (String × α))
    (h : l.Pairwise (fun a b => a.1 ≤ b.1)) :
    (insertSorted p l).Pairwise (fun a b => a.1 ≤ b.1) := by
  induction l with
  | nil => simp [insertSorted]
  | cons q qs ih =>
    rw [insertSorted]
    rcases List.pairwise_cons.mp h with ⟨hq, hqs⟩
    by_cases hle : p.1 ≤ q.1
    · simp only [hle, if_true]
      refine List.pairwise_cons.mpr ⟨?_, h⟩
      intro x hx
      rcases List.mem_cons.mp hx with rfl | hx2
      · exact hle
      · exact le_trans hle (hq x hx2)
    · simp only [hle, if_false]
      refine List.pairwise_cons.mpr ⟨?_, ih hqs⟩
      intro x hx
      have hx2 : x ∈ p :: qs := (insertSorted_perm p qs).mem_iff.mp hx
      rcases List.mem_cons.mp hx2 with rfl | hx3
      · exact le_of_lt (lt_of_not_le hle)
      · exact hq x hx3

/-- The canonical form is sorted by key. -/
theorem sortByKey_pairwise {α : Type} (l : List (String × α)) :
    (sortByKey l).Pairwise (fun a b => a.1 ≤ b.1) := by
  induction l with
  | nil => simp [sortByKey]
  | cons p ps ih => exact insertSorted_pairwise p (sortByKey ps) ih

/-- Canonicalization: two association lists holding the same key-value pairs
(in any insertion orders) with no duplicate key have the same sorted form.
This is exactly why `sort_keys=True` makes the serialization insertion-order
independent. -/
theorem sortByKey_eq_of_perm {α : Type} (l1 l2 : List (String × α))
    (hp : l1.Perm l2) (hnd : (l1.map Prod.fst).Nodup) :
    sortByKey l1 = sortByKey l2 := by
  have hperm : (sortByKey l1).Perm (sortByKey l2) :=
    ((sortByKey_perm l1).trans hp).trans (sortByKey_perm l2).symm
  have hnd1 : ((sortByKey l1).map Prod.fst).Nodup :=
    (((sortByKey_perm l1).map Prod.fst).nodup_iff).mpr hnd
  have hndl2 : (l2.map Prod.fst).Nodup := ((hp.map Prod.fst).nodup_iff).mp hnd
  have hnd2 : ((sortByKey l2).map Prod.fst).Nodup :=
    (((sortByKey_perm l2).map Prod.fst).nodup_iff).mpr hndl2
  have hne1 : (sortByKey l1).Pairwise (fun a b => a.1 ≠ b.1) := List.pairwise_map.mp hnd1
  have hne2 : (sortByKey l2).Pairwise (fun a b => a.1 ≠ b.1) := List.pairwise_map.mp hnd2
  have hs1 : (sortByKey l1).Pairwise (fun a b => a.1 < b.1) :=
    ((sortByKey_pairwise l1).and hne1).imp (fun h => lt_of_le_of_ne h.1 h.2)
  have hs2 : (sortByKey l2).Pairwise (fun a b => a.1 < b.1) :=
    ((sortByKey_pairwise l2).and hne2).imp (fun h => lt_of_le_of_ne h.1 h.2)
  haveI : IsAntisymm (String × α) (fun a b => a.1 < b.1) :=
    ⟨fun a b h1 h2 => absurd (lt_trans h1 h2) (lt_irrefl a.1)⟩
  exact List.eq_of_perm_of_sorted hperm hs1 hs2

/-- If some attribute value is not serializable, the serialization check
fails with the `TypeError` message naming some offending value's type. -/
theorem checkData_error_of_bad (l : List (String × PyVal)) :
    (∃ p, p ∈ l ∧ ∃ ty, p.2 = PyVal.unserializable ty) →
    ∃ ty, checkData l =
      Except.error ("Object of type " ++ ty ++ " is not JSON serializable") := by
  induction l with
  | nil =>
    rintro ⟨p, hp, -⟩
    simp at hp
  | cons q qs ih =>
    rintro ⟨p, hp, ty, hty⟩
    obtain ⟨k, v⟩ := q
    rcases List.mem_cons.mp hp with rfl | hmem
    · refine ⟨ty, ?_⟩
      have hv : v = PyVal.unserializable ty := hty
      simp [checkData, hv, checkVal]
    · cases v with
      | scalar a =>
        obtain ⟨ty2, herr⟩ := ih ⟨p, hmem, ty, hty⟩
        refine ⟨ty2, ?_⟩
        simp [checkData, checkVal, herr]
      | unserializable ty3 =>
        refine ⟨ty3, ?_⟩
        simp [checkData, checkVal]

/-- If the serialization check succeeds, every supplied value was a scalar
(no value was dropped or coerced). -/
theorem checkData_ok_scalar (l : List (String × PyVal)) :
    ∀ r, checkData l = Except.ok r → ∀ p, p ∈ l → ∃ v, p.2 = PyVal.scalar v := by
  induction l with
  | nil => intro r _ p hp; simp at hp
  | cons q qs ih =>
    intro r hr p hp
    obtain ⟨k, v⟩ := q
    cases v with
    | scalar a =>
      rcases List.mem_cons.mp hp with rfl | hmem
      · exact ⟨a, rfl⟩
      · rw [checkData] at hr
        simp only [checkVal] at hr
        cases hqs : checkData qs with
        | error e => rw [hqs] at hr; cases hr
        | ok r2 => exact ih r2 hqs p hmem
    | unserializable ty =>
      rw [checkData] at hr
      simp only [checkVal] at hr
      cases hr

/-- A non-serializable attribute value makes construction fail with the
`TypeError` of `json.dumps`, whose message names the value's type. -/
theorem constructPy_error_of_bad (index : Nat)
    (timestamp order_id location action : String) (previous_hash : Digest)
    (d : List (String × PyVal))
    (hbad : ∃ p, p ∈ d ∧ ∃ ty, p.2 = PyVal.unserializable ty) :
    ∃ ty, Block.constructPy index timestamp order_id location action previous_hash (some d) =
      Except.error ("Object of type " ++ ty ++ " is not JSON serializable") := by
  obtain ⟨p, hp, ty, hty⟩ := hbad
  have hp2 : p ∈ sortByKey d := (sortByKey_perm d).mem_iff.mpr hp
  obtain ⟨ty2, herr⟩ := checkData_error_of_bad (sortByKey d) ⟨p, hp2, ty, hty⟩
  refine ⟨ty2, ?_⟩
  simp [Block.constructPy, herr]

/-- A block whose construction succeeds is self-consistent and stores the
supplied scalar attributes unchanged. -/
theorem constructPy_ok_spec (index : Nat)
    (timestamp order_id location action : String) (previous_hash : Digest)
    (data : Option (List (String × PyVal))) (b : Block)
    (h : Block.constructPy index timestamp order_id location action previous_hash data =
      Except.ok b) :
    b.hash = calculate_hash b ∧
    b.data = (data.getD []).map (fun p => (p.1, scalarOf p.2)) ∧
    ∀ p, p ∈ data.getD [] → ∃ v, p.2 = PyVal.scalar v := by
  rw [Block.constructPy] at h
  cases hck : checkData (sortByKey (data.getD [])) with
  | error e => rw [hck] at h; cases h
  | ok r =>
    rw [hck] at h
    have hb : Block.init index timestamp order_id location action previous_hash
        (some ((data.getD []).map (fun p => (p.1, scalarOf p.2)))) = b := by
      cases h; rfl
    refine ⟨?_, ?_, ?_⟩
    · rw [← hb]
      exact Block.init_selfconsistent ..
    · rw [← hb, Block.init_data]
      rfl
    · intro p hp
      exact checkData_ok_scalar (sortByKey (data.getD [])) r hck p
        ((sortByKey_perm (data.getD [])).mem_iff.mpr hp)

/-- C1: `validate_chain` returns true if and only if every position `i` from
1 to `len(chain) - 1` passes both the self-consistency check (stored hash
equals the digest recomputed from the stored fields) and the linkage check
(`previous_hash` equals the predecessor's stored hash); the scan runs in
ascending order and short-circuits: a reported first violation `(i, k)`
means validation returned false, `1 ≤ i < len(chain)`, every earlier
position passed both checks, and the kind respects the check order
(self-consistency is tested before linkage at each position); position 0
(genesis) is never checked against a predecessor — it does not occur in
either quantification. -/
theorem validate_chain_correct (bc : OrderBlockchain) :
    (validate_chain bc = true ↔ ∀ i, 0 < i → i < bc.chain.length → okAt bc.chain i) ∧
    (validate_chain bc = false → ∃ i k, firstViolation bc.chain = some (i, k)) ∧
    (∀ i k, firstViolation bc.chain = some (i, k) →
      validate_chain bc = false ∧ 0 < i ∧ i < bc.chain.length ∧
      (∀ j, 0 < j → j < i → okAt bc.chain j) ∧
      (k = VKind.hashMismatch →
        (bc.chain.getD i default).hash ≠ calculate_hash (bc.chain.getD i default)) ∧
      (k = VKind.chainBroken →
        (bc.chain.getD i default).hash = calculate_hash (bc.chain.getD i default) ∧
        (bc.chain.getD i default).previous_hash ≠
          (bc.chain.getD (i - 1) default).hash)) := by
  refine ⟨validate_chain_eq_true_iff bc, ?_, ?_⟩
  · intro hf
    cases hfv : firstViolation bc.chain with
    | none => rw [validate_chain, hfv] at hf; cases hf
    | some v =>
      obtain ⟨i0, k0⟩ := v
      exact ⟨i0, k0, rfl⟩
  · intro i k hfv
    rcases bc with ⟨c⟩
    cases c with
    | nil => cases hfv
    | cons g rest =>
      rw [firstViolation] at hfv
      obtain ⟨hij, hlen, hpre, hkh, hkc⟩ := scanChain_some_elim rest g 1 i k hfv
      obtain ⟨m, rfl⟩ : ∃ m, i = m + 1 := ⟨i - 1, by omega⟩
      have hm1 : m + 1 - 1 = m := by omega
      refine ⟨?_, by omega, ?_, ?_, ?_, ?_⟩
      · rw [validate_chain]
        rw [show (OrderBlockchain.mk (g :: rest)).chain = g :: rest from rfl, firstViolation,
          hfv]
        rfl
      · show m + 1 < rest.length + 1
        omega
      · intro j h0 hj
        obtain ⟨m2, rfl⟩ : ∃ m2, j = m2 + 1 := ⟨j - 1, by omega⟩
        have := hpre m2 (by omega)
        simpa [okAt, okPair] using this
      · intro hk
        have := hkh hk
        rw [hm1] at this
        simpa using this
      · intro hk
        have := hkc hk
        rw [hm1] at this
        simpa using this

/-- Witness for C1 on a concrete tampered two-block ledger: the diagnostic
`(1, hashMismatch)` is reported, validation returns false, and the block at
position 1 is indeed self-inconsistent. -/
theorem validate_chain_correct_witness :
    validate_chain ⟨[sampleGenesis, { sampleBlock1 with action := "X" }]⟩ = false ∧
    ((⟨[sampleGenesis, { sampleBlock1 with action := "X" }]⟩ :
        OrderBlockchain).chain.getD 1 default).hash ≠
      calculate_hash ((⟨[sampleGenesis, { sampleBlock1 with action := "X" }]⟩ :
        OrderBlockchain).chain.getD 1 default) :=
  ⟨((validate_chain_correct ⟨[sampleGenesis, { sampleBlock1 with action := "X" }]⟩).2.2 1
      VKind.hashMismatch (by decide)).1,
   ((validate_chain_correct ⟨[sampleGenesis, { sampleBlock1 with action := "X" }]⟩).2.2 1
      VKind.hashMismatch (by decide)).2.2.2.2.1 rfl⟩

/-- C2: every ledger reachable by creating a ledger and performing a finite
sequence of appends has a non-empty chain; its record at position 0 has
index 0, correlation key `"GENESIS"` and previous hash `"0"`; every record's
index equals its position; every record past the genesis links to its
predecessor's hash; and validation succeeds. -/
theorem reachable_ledger_invariants (bc : OrderBlockchain) (h : Reachable bc) :
    bc.chain ≠ [] ∧
    (bc.chain.getD 0 default).index = 0 ∧
    (bc.chain.getD 0 default).order_id = "GENESIS" ∧
    (bc.chain.getD 0 default).previous_hash = Digest.raw "0" ∧
    (∀ i, i < bc.chain.length → (bc.chain.getD i default).index = i) ∧
    (∀ i, 0 < i → i < bc.chain.length →
      (bc.chain.getD i default).previous_hash = (bc.chain.getD (i - 1) default).hash) ∧
    validate_chain bc = true := by
  obtain ⟨now, reqs, rfl⟩ := h
  obtain ⟨hwf, hg⟩ := WFChain_applyAppends reqs (OrderBlockchain.init now) (WFChain_init now)
  have hg0 : (applyAppends (OrderBlockchain.init now) reqs).chain.getD 0 default =
      create_genesis_block now := hg
  refine ⟨hwf.1, ?_, ?_, ?_, ?_, ?_, WFChain_validate _ hwf⟩
  · rw [hg0]; rfl
  · rw [hg0]; rfl
  · rw [hg0]; rfl
  · intro i hi
    exact (hwf.2 i hi).1
  · intro i h0 hi
    exact (hwf.2 i hi).2.2 h0

/-- Witness for C2 on the concrete ledger built by one append after
creation. -/
theorem reachable_ledger_invariants_witness :
    validate_chain (applyAppends (OrderBlockchain.init "t0") [sampleReq]) = true ∧
    ((applyAppends (OrderBlockchain.init "t0") [sampleReq]).chain.getD 1 default).index = 1 ∧
    ((applyAppends (OrderBlockchain.init "t0") [sampleReq]).chain.getD 0 default).order_id =
      "GENESIS" :=
  ⟨(reachable_ledger_invariants _ ⟨"t0", [sampleReq], rfl⟩).2.2.2.2.2.2,
   (reachable_ledger_invariants _ ⟨"t0", [sampleReq], rfl⟩).2.2.2.2.1 1 (by decide),
   (reachable_ledger_invariants _ ⟨"t0", [sampleReq], rfl⟩).2.2.1⟩

/-- C3 counterexample: on the freshly created (reachable, validating) ledger,
mutating the single field `action` of the stored record at position 0 (the
genesis record) leaves `validate_chain` returning true — the claim's
"every position" fails at position 0, because the scan starts at position 1
and the genesis record's own fields are never re-hashed. -/
theorem genesis_mutation_undetected :
    Reachable (OrderBlockchain.init "t0") ∧
    validate_chain (OrderBlockchain.init "t0") = true ∧
    SingleFieldMutation sampleGenesis { sampleGenesis with action := "PACKAGE LOST" } ∧
    validate_chain ⟨[{ sampleGenesis with action := "PACKAGE LOST" }]⟩ = true := by
  refine ⟨⟨"t0", [], rfl⟩, by decide, ?_, by decide⟩
  exact Or.inr (Or.inr (Or.inr (Or.inr (Or.inl ⟨rfl, by decide⟩))))

/-- C3 (amended): for every validating ledger and every position `p ≥ 1`,
mutating any single field of the stored record at `p` makes `validate_chain`
return false and report position `p` (as a hash mismatch).  Position 0 is
excluded: the scan never re-hashes the genesis record (see the
counterexample). -/
theorem mutation_at_positive_position_detected (bc : OrderBlockchain) (p : Nat) (b2 : Block)
    (hv : validate_chain bc = true) (hp : 0 < p) (hlen : p < bc.chain.length)
    (hm : SingleFieldMutation (bc.chain.getD p default) b2) :
    validate_chain ⟨bc.chain.set p b2⟩ = false ∧
    firstViolation (bc.chain.set p b2) = some (p, VKind.hashMismatch) := by
  rcases bc with ⟨c⟩
  cases c with
  | nil => simp at hlen
  | cons g rest =>
    have hok := (validate_chain_eq_true_iff ⟨g :: rest⟩).mp hv p hp hlen
    simp only [okAt] at hok
    have hb2 : b2.hash ≠ calculate_hash b2 :=
      mutation_breaks_selfconsistency _ b2 hok.1 hm
    have hnone : scanChain g 1 rest = none := by
      have hvv : (firstViolation (g :: rest)).isNone = true := hv
      rw [firstViolation] at hvv
      exact Option.isNone_iff_eq_none.mp hvv
    obtain ⟨m, rfl⟩ : ∃ m, p = m + 1 := ⟨p - 1, by omega⟩
    have hm2 : m < rest.length := by simpa using hlen
    have hscan := scanChain_set_selfFail rest g 1 m b2 hm2 hnone hb2
    have hfv : firstViolation ((g :: rest).set (m + 1) b2) = some (m + 1, VKind.hashMismatch) := by
      rw [List.set_cons_succ, firstViolation, hscan]
      rw [Nat.add_comm 1 m]
    refine ⟨?_, hfv⟩
    rw [validate_chain,
      show (⟨(g :: rest).set (m + 1) b2⟩ : OrderBlockchain).chain = (g :: rest).set (m + 1) b2
        from rfl, hfv]
    rfl

/-- Witness for the amended C3: mutating the `action` field of the block at
position 1 of the concrete two-block ledger is detected and reported at
position 1. -/
theorem mutation_at_positive_position_detected_witness :
    validate_chain ⟨sampleChain.chain.set 1 { sampleBlock1 with action := "X" }⟩ = false ∧
    firstViolation (sampleChain.chain.set 1 { sampleBlock1 with action := "X" }) =
      some (1, VKind.hashMismatch) :=
  mutation_at_positive_position_detected sampleChain 1 { sampleBlock1 with action := "X" }
    (by decide) (by decide) (by decide) (by decide)

/-- C4: the digest is a pure deterministic function of the seven record
fields (stored hash excluded); records built from attribute mappings that
are permutations of one another (with unique keys, as in a Python dict) get
identical hashes; and constructing with `data=None` is identical to
constructing with an empty mapping. -/
theorem calculate_hash_pure_canonical :
    (∀ b1 b2 : Block, b1.index = b2.index → b1.timestamp = b2.timestamp →
      b1.order_id = b2.order_id → b1.location = b2.location → b1.action = b2.action →
      b1.data = b2.data → b1.previous_hash = b2.previous_hash →
      calculate_hash b1 = calculate_hash b2) ∧
    (∀ (index : Nat) (timestamp order_id location action : String) (previous_hash : Digest)
      (l1 l2 : List (String × AttrVal)), l1.Perm l2 → (l1.map Prod.fst).Nodup →
      (Block.init index timestamp order_id location action previous_hash (some l1)).hash =
        (Block.init index timestamp order_id location action previous_hash (some l2)).hash) ∧
    (∀ (index : Nat) (timestamp order_id location action : String) (previous_hash : Digest),
      Block.init index timestamp order_id location action previous_hash none =
        Block.init index timestamp order_id location action previous_hash (some [])) := by
  refine ⟨calculate_hash_congr, ?_, ?_⟩
  · intro index timestamp order_id location action previous_hash l1 l2 hp hnd
    show Digest.sha index timestamp order_id location action (sortByKey l1) previous_hash =
      Digest.sha index timestamp order_id location action (sortByKey l2) previous_hash
    rw [sortByKey_eq_of_perm l1 l2 hp hnd]
  · intro index timestamp order_id location action previous_hash
    rfl

/-- Witness for C4: two insertion orders of the same two-key mapping hash
identically, and the determinism component applies reflexively. -/
theorem calculate_hash_pure_canonical_witness :
    (Block.init 1 "t" "o" "l" "a" (Digest.raw "0")
        (some [("b", AttrVal.str "2"), ("a", AttrVal.str "1")])).hash =
      (Block.init 1 "t" "o" "l" "a" (Digest.raw "0")
        (some [("a", AttrVal.str "1"), ("b", AttrVal.str "2")])).hash ∧
    calculate_hash sampleGenesis = calculate_hash sampleGenesis :=
  ⟨calculate_hash_pure_canonical.2.1 1 "t" "o" "l" "a" (Digest.raw "0")
      [("b", AttrVal.str "2"), ("a", AttrVal.str "1")]
      [("a", AttrVal.str "1"), ("b", AttrVal.str "2")] (by decide) (by decide),
   calculate_hash_pure_canonical.1 sampleGenesis sampleGenesis rfl rfl rfl rfl rfl rfl rfl⟩

/-- C5: on every non-empty ledger, `add_block` reads the last record and
appends (and returns) a record with index `last.index + 1`, previous hash
`last.hash`, the supplied correlation key, location, action, timestamp and
attributes (absent attributes becoming the empty mapping), sealed with its
computed digest; and reachable ledgers are never empty (the genesis record
is always present), so `add_block` never operates on an empty sequence. -/
theorem add_block_appends :
    (∀ (bc : OrderBlockchain) (now order_id location action : String)
      (data : Option (List (String × AttrVal))), bc.chain ≠ [] →
      ∃ last, bc.chain.getLast? = some last ∧
        add_block bc now order_id location action data =
          some (⟨bc.chain ++
              [Block.init (last.index + 1) now order_id location action last.hash data]⟩,
            Block.init (last.index + 1) now order_id location action last.hash data) ∧
        (Block.init (last.index + 1) now order_id location action last.hash data).index =
          last.index + 1 ∧
        (Block.init (last.index + 1) now order_id location action last.hash data).previous_hash =
          last.hash ∧
        (Block.init (last.index + 1) now order_id location action last.hash data).order_id =
          order_id ∧
        (Block.init (last.index + 1) now order_id location action last.hash data).location =
          location ∧
        (Block.init (last.index + 1) now order_id location action last.hash data).action =
          action ∧
        (Block.init (last.index + 1) now order_id location action last.hash data).timestamp =
          now ∧
        (Block.init (last.index + 1) now order_id location action last.hash data).data =
          data.getD [] ∧
        (Block.init (last.index + 1) now order_id location action last.hash data).hash =
          calculate_hash
            (Block.init (last.index + 1) now order_id location action last.hash data)) ∧
    (∀ bc : OrderBlockchain, Reachable bc → bc.chain ≠ []) := by
  constructor
  · intro bc now order_id location action data hbc
    exact ⟨bc.chain.getD (bc.chain.length - 1) default, getLast?_eq_getD bc.chain hbc,
      add_block_eq bc hbc now order_id location action data,
      rfl, rfl, rfl, rfl, rfl, rfl, rfl, Block.init_selfconsistent ..⟩
  · rintro bc ⟨now, reqs, rfl⟩
    exact (WFChain_applyAppends reqs (OrderBlockchain.init now) (WFChain_init now)).1.1

/-- Witness for C5 on the concrete two-block ledger, with the last block
computed explicitly, plus the non-emptiness of a freshly created ledger. -/
theorem add_block_appends_witness :
    add_block sampleChain "t2" "A1" "Loc2" "Shipped" none =
      some (⟨sampleChain.chain ++
          [Block.init (sampleBlock1.index + 1) "t2" "A1" "Loc2" "Shipped"
            sampleBlock1.hash none]⟩,
        Block.init (sampleBlock1.index + 1) "t2" "A1" "Loc2" "Shipped"
          sampleBlock1.hash none) ∧
    (OrderBlockchain.init "t0").chain ≠ [] := by
  obtain ⟨last, hlast, heq, -⟩ :=
    add_block_appends.1 sampleChain "t2" "A1" "Loc2" "Shipped" none (by decide)
  have hl : last = sampleBlock1 := by
    have hs : sampleChain.chain.getLast? = some sampleBlock1 := rfl
    rw [hs] at hlast
    exact (Option.some.injEq _ _).mp hlast.symm
  subst hl
  exact ⟨heq, add_block_appends.2 (OrderBlockchain.init "t0") ⟨"t0", [], rfl⟩⟩

/-- C6: in a valid ledger state (every stored hash is the digest of its
record's fields — as holds in every reachable state — and validation
passes), overwriting the record at any position with anything and then
restoring the original field values and recomputing the hash from the
stored fields yields exactly the original chain, so `validate_chain`
returns true again: validity depends only on the current field/hash
consistency, not on the mutation history. -/
theorem restore_then_rehash_revalidates (bc : OrderBlockchain) (p : Nat) (b2 : Block)
    (hC : Consistent bc.chain) (hv : validate_chain bc = true) (hp : p < bc.chain.length) :
    (bc.chain.set p b2).set p
      { bc.chain.getD p default with hash := calculate_hash (bc.chain.getD p default) } =
      bc.chain ∧
    validate_chain ⟨(bc.chain.set p b2).set p
      { bc.chain.getD p default with
        hash := calculate_hash (bc.chain.getD p default) }⟩ = true := by
  have hcons := hC p hp
  have hrestored : { bc.chain.getD p default with
      hash := calculate_hash (bc.chain.getD p default) } = bc.chain.getD p default := by
    rw [← hcons]
  have hset : (bc.chain.set p b2).set p (bc.chain.getD p default) = bc.chain := by
    rw [List.set_set]
    exact set_getD_self bc.chain p hp
  rw [hrestored, hset]
  exact ⟨rfl, hv⟩

/-- Witness for C6: tamper with position 1 of the concrete two-block ledger,
restore and rehash; the chain is the original one and validates. -/
theorem restore_then_rehash_revalidates_witness :
    (sampleChain.chain.set 1 { sampleBlock1 with action := "X" }).set 1
      { sampleChain.chain.getD 1 default with
        hash := calculate_hash (sampleChain.chain.getD 1 default) } = sampleChain.chain ∧
    validate_chain ⟨(sampleChain.chain.set 1 { sampleBlock1 with action := "X" }).set 1
      { sampleChain.chain.getD 1 default with
        hash := calculate_hash (sampleChain.chain.getD 1 default) }⟩ = true :=
  restore_then_rehash_revalidates sampleChain 1 { sampleBlock1 with action := "X" }
    (by decide) (by decide) (by decide)

/-- C7: `get_order_journey k` returns exactly the records whose correlation
key equals `k` — membership is equivalent to being a chain record with that
key, the result is a sublist of the chain (hence in original ascending
order, with every match included), and it is empty when no record
matches. -/
theorem get_order_journey_filters (bc : OrderBlockchain) (k : String) :
    (∀ b : Block, b ∈ get_order_journey bc k ↔ b ∈ bc.chain ∧ b.order_id = k) ∧
    (get_order_journey bc k).Sublist bc.chain ∧
    ((∀ b : Block, b ∈ bc.chain → b.order_id ≠ k) → get_order_journey bc k = []) := by
  refine ⟨?_, ?_, ?_⟩
  · intro b
    simp [get_order_journey, List.mem_filter]
  · exact List.filter_sublist bc.chain
  · intro h
    rw [get_order_journey, List.filter_eq_nil_iff]
    intro b hb
    simpa using h b hb

/-- Witness for C7: an unused key yields the empty journey on a fresh
ledger. -/
theorem get_order_journey_filters_witness :
    get_order_journey (OrderBlockchain.init "t0") "NOPE" = [] :=
  (get_order_journey_filters (OrderBlockchain.init "t0") "NOPE").2.2 (by decide)

/-- C8: `validate_chain` and `get_order_journey` contain no assignment, so
their state-passing embeddings return the ledger (hence every record, every
field, every hash, and the length) unchanged, and calling `validate_chain`
again after either call yields the same boolean. -/
theorem validate_and_query_readonly (bc : OrderBlockchain) (k : String) :
    (validate_chain_run bc).1 = bc ∧
    (validate_chain_run bc).1.chain = bc.chain ∧
    (get_order_journey_run bc k).1 = bc ∧
    (get_order_journey_run bc k).1.chain.length = bc.chain.length ∧
    (validate_chain_run ((validate_chain_run bc).1)).2.1 = (validate_chain_run bc).2.1 ∧
    (validate_chain_run ((get_order_journey_run bc k).1)).2.1 = (validate_chain_run bc).2.1 :=
  ⟨rfl, rfl, rfl, rfl, rfl, rfl⟩

/-- C9 counterexample: the `TypeError` raised by `json.dumps` during
construction is literally `"Object of type set is not JSON serializable"` —
it names the offending value's type but not the key, so two records whose
only bad value sits under different keys fail with the identical error: the
error does not identify the offending key. -/
theorem construct_error_ignores_key :
    Block.constructPy 1 "t" "o" "l" "a" (Digest.raw "0")
        (some [("alpha", PyVal.unserializable "set")]) =
      Except.error "Object of type set is not JSON serializable" ∧
    Block.constructPy 1 "t" "o" "l" "a" (Digest.raw "0")
        (some [("beta", PyVal.unserializable "set")]) =
      Except.error "Object of type set is not JSON serializable" :=
  ⟨rfl, rfl⟩

/-- C9 (amended): constructing a record with a non-serializable attribute
value fails at record-construction time (the hash is computed inside the
constructor) with a `TypeError` naming the offending value's type — though
not its key; construction never silently drops or coerces such data, and a
record whose construction succeeds stores exactly the supplied scalar
attributes and re-hashes deterministically. -/
theorem constructPy_spec :
    (∀ (index : Nat) (timestamp order_id location action : String) (previous_hash : Digest)
      (d : List (String × PyVal)),
      (∃ p, p ∈ d ∧ ∃ ty, p.2 = PyVal.unserializable ty) →
      ∃ ty, Block.constructPy index timestamp order_id location action previous_hash (some d) =
        Except.error ("Object of type " ++ ty ++ " is not JSON serializable")) ∧
    (∀ (index : Nat) (timestamp order_id location action : String) (previous_hash : Digest)
      (data : Option (List (String × PyVal))) (b : Block),
      Block.constructPy index timestamp order_id location action previous_hash data =
        Except.ok b →
      b.hash = calculate_hash b ∧
      b.data = (data.getD []).map (fun p => (p.1, scalarOf p.2)) ∧
      ∀ p, p ∈ data.getD [] → ∃ v, p.2 = PyVal.scalar v) :=
  ⟨constructPy_error_of_bad, constructPy_ok_spec⟩

/-- Witness for the amended C9: a concrete bad value fails with the typed
error, and a concrete good construction is self-consistent. -/
theorem constructPy_spec_witness :
    (∃ ty, Block.constructPy 1 "t" "o" "l" "a" (Digest.raw "0")
        (some [("k", PyVal.unserializable "set")]) =
      Except.error ("Object of type " ++ ty ++ " is not JSON serializable")) ∧
    (Block.init 1 "t" "o" "l" "a" (Digest.raw "0") (some [("k", AttrVal.str "v")])).hash =
      calculate_hash (Block.init 1 "t" "o" "l" "a" (Digest.raw "0")
        (some [("k", AttrVal.str "v")])) :=
  ⟨constructPy_spec.1 1 "t" "o" "l" "a" (Digest.raw "0")
      [("k", PyVal.unserializable "set")]
      ⟨("k", PyVal.unserializable "set"), by decide, "set", rfl⟩,
   (constructPy_spec.2 1 "t" "o" "l" "a" (Digest.raw "0")
      (some [("k", PyVal.scalar (AttrVal.str "v"))])
      (Block.init 1 "t" "o" "l" "a" (Digest.raw "0") (some [("k", AttrVal.str "v")]))
      rfl).1⟩

/-- C10: on a freshly created ledger, querying the reserved key
`"GENESIS"` returns exactly the one-element sequence holding the genesis
record — the query does not treat the sentinel key specially. -/
theorem genesis_journey_on_fresh_ledger (now : String) :
    get_order_journey (OrderBlockchain.init now) "GENESIS" = [create_genesis_block now] ∧
    (create_genesis_block now).order_id = "GENESIS" :=
  ⟨rfl, rfl⟩
